import Mathlib

/-!
Verification of the splitwise_backend expense-ledger core.

The data model and the three mutating operations (`createGroup`,
`createExpense`, `markPaid`) are shallow embeddings of the Express route
handlers in `src/api/index.js` together with the mongoose schemas in
`models.js`:

* ObjectIds are modelled as `Nat`; amounts as `Int` (currency minor units);
  dates as `Nat` timestamps.
* mongoose `required: true` on a `String` path rejects the empty string
  (its default `checkRequired` for strings demands positive length), so
  `Expense.create` with an empty `label`, and `Group.create` with an empty
  `name`, fail with mongoose's `ValidationError`.  `required` on a `Number`
  path accepts every number, so `amount` is never range-checked.
* a split subdocument has a `paid` path with `default: false`: a value
  supplied by the client is stored as given, the default applies only when
  the field is absent (`SplitIn.paid : Option Bool`).
* `Expense.findById` / `Group.findById` become `List.find?` on id; a mongoose
  `save` of a loaded document becomes an id-keyed pointwise update.

The settlement engine (`simplifyDebts`) has no source code in the
repository; it is modelled from the specification (section 4.4) and proved
correct against the specification's own guarantees.
-/

namespace Splitwise

/-- One entry of the `splits` array in the request body of
`POST /api/group/:groupId/expense`.  The `paid` field is optional in the
request; the schema default `false` applies only when it is absent. -/
structure SplitIn where
  userId : Nat
  shareAmount : Int
  paid : Option Bool
deriving DecidableEq, Repr

/-- A stored split subdocument (mongoose `expenseSchema.splits` element). -/
structure Split where
  userId : Nat
  shareAmount : Int
  paid : Bool
deriving DecidableEq, Repr

/-- mongoose casting of a request split into a stored split: a supplied
`paid` value is kept, the schema default `false` is used when absent. -/
def castSplit (s : SplitIn) : Split :=
  { userId := s.userId, shareAmount := s.shareAmount, paid := s.paid.getD false }

/-- A stored expense document (mongoose `expenseSchema`). -/
structure Expense where
  id : Nat
  label : String
  amount : Int
  date : Nat
  group : Nat
  splits : List Split
  paid : Bool
deriving DecidableEq, Repr

/-- A stored group document (mongoose `groupSchema`). -/
structure Group where
  id : Nat
  name : String
  createdBy : Nat
  members : List Nat
  expenses : List Nat
deriving DecidableEq, Repr

/-- The persistent store: the `groups` and `expenses` collections, plus a
counter supplying fresh ObjectIds. -/
structure DB where
  groups : List Group
  expenses : List Expense
  nextId : Nat
deriving DecidableEq, Repr

/-- Error outcomes of the embedded routes.  `validation` is mongoose's
`ValidationError` (thrown by `create`/`save` when a schema check fails);
`notFound` is the route's own 404 response. -/
inductive ApiError where
  | notFound (msg : String)
  | validation (msg : String)
deriving DecidableEq, Repr

/-- `POST /api/group/create` (src/api/index.js lines 149-157):
`Group.create({ name, createdBy: req.user._id, members: [req.user._id, ...members] })`.
The route itself performs no checks; mongoose's `required` on `name`
rejects an empty name.  The member list is the creator followed by the
request's `members` array, with no deduplication. -/
def createGroup (st : DB) (requesterId : Nat) (name : String)
    (members : List Nat) : Except ApiError (DB × Group) :=
  if name = "" then .error (.validation "name required")
  else
    let group : Group :=
      { id := st.nextId, name := name, createdBy := requesterId,
        members := requesterId :: members, expenses := [] }
    .ok ({ st with groups := st.groups ++ [group], nextId := st.nextId + 1 }, group)

/-- `POST /api/group/:groupId/expense` (src/api/index.js lines 160-178):
looks up the group (404 if absent), then `Expense.create` with the request
body's `label`, `amount`, `date` (defaulting to now) and `splits` as given;
mongoose's `required` on `label` rejects an empty label, while `amount` and
the splits are stored unvalidated.  The new expense id is pushed onto the
group's `expenses` array.  `requesterId` (the authenticated user) is never
consulted. -/
def createExpense (st : DB) (requesterId : Nat) (gid : Nat) (label : String)
    (amount : Int) (date : Option Nat) (splits : List SplitIn) (now : Nat) :
    Except ApiError (DB × Expense) :=
  match st.groups.find? (fun g => g.id = gid) with
  | none => .error (.notFound "Group not found")
  | some group =>
    if label = "" then .error (.validation "label required")
    else
      let expense : Expense :=
        { id := st.nextId, label := label, amount := amount,
          date := date.getD now, group := group.id,
          splits := splits.map castSplit, paid := false }
      let groups := st.groups.map (fun g =>
        if g.id = gid then { g with expenses := g.expenses ++ [expense.id] } else g)
      let st' : DB :=
        { groups := groups, expenses := st.expenses ++ [expense], nextId := st.nextId + 1 }
      .ok (st', expense)

/-- `POST /api/expense/:id/markPaid` (src/api/index.js lines 181-187):
looks up the expense (404 if absent), sets the top-level `paid` flag to
`true` unconditionally and saves.  No other field, in particular no split's
own `paid` flag, is touched, and the current value of `paid` is not
consulted. -/
def markPaid (st : DB) (eid : Nat) : Except ApiError DB :=
  match st.expenses.find? (fun e => e.id = eid) with
  | none => .error (.notFound "Expense not found")
  | some _ =>
    .ok { st with expenses := st.expenses.map (fun e =>
            if e.id = eid then { e with paid := true } else e) }

/-- One mutating request against the store: the three routes that write to
the `groups` / `expenses` collections. -/
inductive Op where
  | createGroup (requesterId : Nat) (name : String) (members : List Nat)
  | createExpense (requesterId : Nat) (gid : Nat) (label : String)
      (amount : Int) (date : Option Nat) (splits : List SplitIn) (now : Nat)
  | markPaid (eid : Nat)
deriving DecidableEq, Repr

/-- Effect of one request on the store (a failed request leaves it as is). -/
def applyOp (st : DB) : Op → DB
  | .createGroup r n m =>
    match createGroup st r n m with
    | .ok (st', _) => st'
    | .error _ => st
  | .createExpense r g l a d s now =>
    match createExpense st r g l a d s now with
    | .ok (st', _) => st'
    | .error _ => st
  | .markPaid e =>
    match markPaid st e with
    | .ok st' => st'
    | .error _ => st

/-! ### Concrete store used by the counterexamples and witnesses -/

/-- A group with creator 1 and members 1, 2. -/
def demoGroup : Group :=
  { id := 10, name := "Trip", createdBy := 1, members := [1, 2], expenses := [3] }

/-- An expense in `demoGroup` with a single unpaid split for member 2. -/
def demoExpense : Expense :=
  { id := 3, label := "Lunch", amount := 50, date := 0, group := 10,
    splits := [{ userId := 2, shareAmount := 50, paid := false }], paid := false }

/-- A store holding `demoGroup` and `demoExpense`. -/
def demoSt : DB := { groups := [demoGroup], expenses := [demoExpense], nextId := 20 }

/-- `demoSt` after `markPaid` on expense 3: the top-level flag is `true`
while the single split is still unpaid. -/
def demoStPaid : DB :=
  { groups := [demoGroup], expenses := [{ demoExpense with paid := true }], nextId := 20 }

/-- A request split for member 2 that leaves the optional `paid` field absent. -/
def teaSplitIn : SplitIn := { userId := 2, shareAmount := 30, paid := none }

/-- The expense produced by `createExpense demoSt 1 10 "Tea" 30 none [teaSplitIn] 0`. -/
def teaExpense : Expense :=
  { id := 20, label := "Tea", amount := 30, date := 0, group := 10,
    splits := [{ userId := 2, shareAmount := 30, paid := false }], paid := false }

/-- The store produced by `createExpense demoSt 1 10 "Tea" 30 none [teaSplitIn] 0`. -/
def teaSt : DB :=
  { groups := [{ demoGroup with expenses := [3, 20] }],
    expenses := [demoExpense, teaExpense], nextId := 21 }

/-- The group produced by `createGroup demoSt 1 "G" [1, 2, 2]`: the creator is
prepended to the request's member list with no deduplication. -/
def demoGroup2 : Group :=
  { id := 20, name := "G", createdBy := 1, members := [1, 1, 2, 2], expenses := [] }

/-- The store produced by `createGroup demoSt 1 "G" [1, 2, 2]`. -/
def demoSt2 : DB :=
  { groups := [demoGroup, demoGroup2], expenses := [demoExpense], nextId := 21 }

/-! ### Settlement engine

The specification's section 4.4 describes `simplifyDebts`; the repository
contains no code for it, so it is modelled from the specification.
Amounts are integers (currency minor units), so the rounding tolerance is
zero: a creditor is a member with balance `> 0`, a debtor one with balance
`< 0`, and "approximately zero" is exactly zero. -/

/-- Modelled from the spec: a settlement transfer `{from, to, amount}`
(section 4.4); `src` is the paying debtor (`from`), `dst` the receiving
creditor (`to`). -/
structure Transfer where
  src : Nat
  dst : Nat
  amount : Int
deriving DecidableEq, Repr

/-- Modelled from the spec: candidate `p` beats the current best creditor
when its balance is larger, or equal with a lower member id (the
lower-member-id-first tie-break of section 4.4). -/
def betterCreditor (best p : Nat × Int) : Nat × Int :=
  if best.2 < p.2 ∨ (p.2 = best.2 ∧ p.1 < best.1) then p else best

/-- Modelled from the spec: the creditor with the largest balance,
ties broken by lower member id. -/
def pickCreditor : List (Nat × Int) → Option (Nat × Int)
  | [] => none
  | x :: xs => some (xs.foldl betterCreditor x)

/-- Modelled from the spec: candidate `p` beats the current best debtor when
its balance is more negative, or equal with a lower member id. -/
def betterDebtor (best p : Nat × Int) : Nat × Int :=
  if p.2 < best.2 ∨ (p.2 = best.2 ∧ p.1 < best.1) then p else best

/-- Modelled from the spec: the debtor with the largest negative balance,
ties broken by lower member id. -/
def pickDebtor : List (Nat × Int) → Option (Nat × Int)
  | [] => none
  | x :: xs => some (xs.foldl betterDebtor x)

/-- Removal of the first occurrence of an element from a list. -/
def removeFirst (side : List (Nat × Int)) (chosen : Nat × Int) :
    List (Nat × Int) :=
  match side with
  | [] => []
  | x :: xs => if x = chosen then xs else x :: removeFirst xs chosen

/-- Modelled from the spec: after a transfer, the chosen party's balance is
reduced to `newBal`; a party that reaches zero is dropped from its side. -/
def applyPick (side : List (Nat × Int)) (chosen : Nat × Int) (newBal : Int) :
    List (Nat × Int) :=
  if newBal = 0 then removeFirst side chosen
  else (chosen.1, newBal) :: removeFirst side chosen

/-- Modelled from the spec: the greedy matching loop of section 4.4 —
repeatedly match the largest creditor with the largest debtor, transfer
`min(creditor balance, -debtor balance)`, reduce both, drop parties that
reach zero.  Each round removes at least one party, so fuel equal to the
number of parties suffices (proved by the correctness theorem). -/
def settleFuel : Nat → List (Nat × Int) → List (Nat × Int) → List Transfer
  | 0, _, _ => []
  | fuel + 1, cs, ds =>
    match pickCreditor cs, pickDebtor ds with
    | some c, some d =>
      let t := min c.2 (-d.2)
      { src := d.1, dst := c.1, amount := t } ::
        settleFuel fuel (applyPick cs c (c.2 - t)) (applyPick ds d (d.2 + t))
    | _, _ => []

/-- Modelled from the spec: the greedy loop started with fuel equal to the
total number of parties. -/
def settle (cs ds : List (Nat × Int)) : List Transfer :=
  settleFuel (cs.length + ds.length) cs ds

/-- Modelled from the spec: `simplifyDebts` (section 4.4) — fails with
`ValidationError` unless the balances sum to zero, then runs the greedy
matching on the creditors (balance `> 0`) and debtors (balance `< 0`). -/
def simplifyDebts (balances : List (Nat × Int)) : Except ApiError (List Transfer) :=
  if (balances.map Prod.snd).sum = 0 then
    .ok (settle (balances.filter (fun p => 0 < p.2))
                (balances.filter (fun p => p.2 < 0)))
  else .error (.validation "balances do not sum to zero")

/-- Modelled from the spec: applying one transfer to a balance mapping —
the payer's (`src`) balance rises by the amount, the receiver's (`dst`)
falls by it. -/
def applyTransfer (bs : List (Nat × Int)) (t : Transfer) : List (Nat × Int) :=
  bs.map fun p =>
    (p.1, p.2 + (if t.src = p.1 then t.amount else 0)
              - (if t.dst = p.1 then t.amount else 0))

/-- Modelled from the spec: applying a sequence of transfers in order. -/
def applyTransfers (bs : List (Nat × Int)) (ts : List Transfer) : List (Nat × Int) :=
  ts.foldl applyTransfer bs

/-- Net effect of a transfer list on member `x`'s balance. -/
def net (ts : List Transfer) (x : Nat) : Int :=
  (ts.map fun t =>
    (if t.src = x then t.amount else 0) - (if t.dst = x then t.amount else 0)).sum

/-! ### Inversion and evaluation helpers for the route embeddings -/

/-- Successful group creation, explicitly. -/
theorem createGroup_ok_inv (st : DB) (r : Nat) (n : String) (m : List Nat)
    (st2 : DB) (g : Group) (h : createGroup st r n m = .ok (st2, g)) :
    n ≠ "" ∧
    g = { id := st.nextId, name := n, createdBy := r, members := r :: m,
          expenses := [] } ∧
    st2 = { st with groups := st.groups ++ [g], nextId := st.nextId + 1 } := by
  unfold createGroup at h
  split at h
  · cases h
  · simp only [Except.ok.injEq, Prod.mk.injEq] at h
    obtain ⟨hst, hg⟩ := h
    subst hg
    exact ⟨by assumption, rfl, hst.symm⟩

/-- Successful expense creation, explicitly. -/
theorem createExpense_eq_ok (st : DB) (r : Nat) (gid : Nat) (label : String)
    (amount : Int) (date : Option Nat) (splits : List SplitIn) (now : Nat)
    (group : Group) (hg : st.groups.find? (fun g => g.id = gid) = some group)
    (hl : label ≠ "") :
    createExpense st r gid label amount date splits now =
      .ok ({ groups := st.groups.map (fun g =>
               if g.id = gid then { g with expenses := g.expenses ++ [st.nextId] } else g),
             expenses := st.expenses ++
               [{ id := st.nextId, label := label, amount := amount,
                  date := date.getD now, group := group.id,
                  splits := splits.map castSplit, paid := false }],
             nextId := st.nextId + 1 },
           { id := st.nextId, label := label, amount := amount,
             date := date.getD now, group := group.id,
             splits := splits.map castSplit, paid := false }) := by
  unfold createExpense
  rw [hg]
  simp [hl]

/-- Inversion of a successful expense creation. -/
theorem createExpense_ok_inv (st : DB) (r : Nat) (gid : Nat) (label : String)
    (amount : Int) (date : Option Nat) (splits : List SplitIn) (now : Nat)
    (st2 : DB) (e : Expense)
    (h : createExpense st r gid label amount date splits now = .ok (st2, e)) :
    ∃ group, st.groups.find? (fun g => g.id = gid) = some group ∧ label ≠ "" ∧
      e = { id := st.nextId, label := label, amount := amount,
            date := date.getD now, group := group.id,
            splits := splits.map castSplit, paid := false } ∧
      st2 = { groups := st.groups.map (fun g =>
                if g.id = gid then { g with expenses := g.expenses ++ [st.nextId] } else g),
              expenses := st.expenses ++ [e], nextId := st.nextId + 1 } := by
  unfold createExpense at h
  split at h
  · cases h
  · rename_i group hf
    split at h
    · cases h
    · rename_i hl
      simp only [Except.ok.injEq, Prod.mk.injEq] at h
      obtain ⟨hst, he⟩ := h
      subst he
      exact ⟨group, hf, hl, rfl, hst.symm⟩

/-- Inversion of a successful mark-paid call. -/
theorem markPaid_ok_inv (st : DB) (eid : Nat) (st2 : DB)
    (h : markPaid st eid = .ok st2) :
    (st.expenses.find? (fun e => e.id = eid)).isSome ∧
    st2 = { st with expenses := st.expenses.map (fun e =>
              if e.id = eid then { e with paid := true } else e) } := by
  unfold markPaid at h
  cases hf : st.expenses.find? (fun e => e.id = eid) with
  | none => rw [hf] at h; cases h
  | some e0 =>
    rw [hf] at h
    simp only [Except.ok.injEq] at h
    exact ⟨rfl, h.symm⟩

/-- `find?` commutes with a map that preserves the predicate. -/
theorem find?_map_pred_comm {α : Type} (f : α → α) (p : α → Bool)
    (hp : ∀ a, p (f a) = p a) (l : List α) :
    (l.map f).find? p = (l.find? p).map f := by
  induction l with
  | nil => rfl
  | cons a l ih =>
    by_cases ha : p a
    · simp [List.find?_cons, hp, ha]
    · simp [List.find?_cons, hp, ha, ih]

/-! ### Claim C1 — allocation validation at expense creation -/

/-- C1 counterexample: a request with an empty allocation list is accepted —
`createExpense` returns `ok` and the expense is appended to the store
(afterwards the collection holds 2 expenses), contradicting the claim that
empty allocations fail with `ValidationError` and record nothing. -/
theorem createExpense_empty_allocations_accepted :
    (createExpense demoSt 1 10 "Dinner" 100 none [] 0).map
      (fun p => (p.2.splits, p.1.expenses.length)) = .ok ([], 2) := rfl

/-- C1 (amended): `createExpense` performs no allocation validation — for
every request to an existing group with a non-empty label it succeeds,
whatever the allocations (empty, duplicated member, negative or mismatched
shares), and records the shares exactly as given, never adjusting them. -/
theorem createExpense_records_allocations_unvalidated (st : DB) (r : Nat)
    (gid : Nat) (label : String) (amount : Int) (date : Option Nat)
    (splits : List SplitIn) (now : Nat) (group : Group)
    (hg : st.groups.find? (fun g => g.id = gid) = some group)
    (hl : label ≠ "") :
    ∃ st2 e, createExpense st r gid label amount date splits now = .ok (st2, e) ∧
      e.splits = splits.map castSplit ∧ e ∈ st2.expenses := by
  refine ⟨_, _, createExpense_eq_ok st r gid label amount date splits now group hg hl,
    rfl, ?_⟩
  simp

/-- C1 witness: the spec's own mismatch scenario (shares 40 + 40 against a
total of 100) is accepted and recorded as given. -/
theorem createExpense_records_allocations_unvalidated_witness :
    ∃ st2 e, createExpense demoSt 1 10 "Dinner" 100 none
        [{ userId := 1, shareAmount := 40, paid := none },
         { userId := 2, shareAmount := 40, paid := none }] 0 = .ok (st2, e) ∧
      e.splits = [{ userId := 1, shareAmount := 40, paid := none },
        { userId := 2, shareAmount := 40, paid := none }].map castSplit ∧
      e ∈ st2.expenses :=
  createExpense_records_allocations_unvalidated demoSt 1 10 "Dinner" 100 none
    [{ userId := 1, shareAmount := 40, paid := none },
     { userId := 2, shareAmount := 40, paid := none }] 0 demoGroup rfl (by decide)

/-! ### Claim C4 — membership guard at expense creation -/

/-- C4 counterexample: requester 99 is not a member of group 10, yet the
expense creation succeeds — there is no `ForbiddenError` (the embedding has
no such error at all, mirroring the route). -/
theorem createExpense_nonmember_accepted :
    99 ∉ demoGroup.members ∧
    (createExpense demoSt 99 10 "Dinner" 100 none
      [{ userId := 1, shareAmount := 100, paid := none }] 0).isOk = true := by
  exact ⟨by decide, rfl⟩

/-- C4 (amended): `createExpense` never consults the requester — its outcome
is identical for any two requesters, member or not, so no membership guard
exists. -/
theorem createExpense_ignores_requester (st : DB) (r1 r2 : Nat) (gid : Nat)
    (label : String) (amount : Int) (date : Option Nat) (splits : List SplitIn)
    (now : Nat) :
    createExpense st r1 gid label amount date splits now =
      createExpense st r2 gid label amount date splits now := rfl

/-! ### Claim C5 — paid flags of a freshly created expense -/

/-- C5 counterexample: a split in the request body may carry `paid: true`,
and mongoose stores the supplied value (the schema default applies only to
absent fields): the freshly created expense has a split whose paid flag is
already `true`. -/
theorem createExpense_stores_supplied_paid_flag :
    (createExpense demoSt 1 10 "Gift" 30 none
      [{ userId := 2, shareAmount := 30, paid := some true }] 0).map
      (fun p => p.2.splits.map Split.paid) = .ok [true] := rfl

/-- C5 (amended): every successful `createExpense` returns an expense whose
overall paid flag is `false`, and whose splits' paid flags are `false`
whenever the request left the optional per-split `paid` field absent (the
schema default); a supplied value is stored as given. -/
theorem createExpense_default_paid_flags (st : DB) (r : Nat) (gid : Nat)
    (label : String) (amount : Int) (date : Option Nat) (splits : List SplitIn)
    (now : Nat) (st2 : DB) (e : Expense)
    (h : createExpense st r gid label amount date splits now = .ok (st2, e)) :
    e.paid = false ∧
    ((∀ s ∈ splits, s.paid = none) → ∀ sp ∈ e.splits, sp.paid = false) := by
  obtain ⟨group, hg, hl, he, -⟩ :=
    createExpense_ok_inv st r gid label amount date splits now st2 e h
  subst he
  refine ⟨rfl, ?_⟩
  intro hall sp hsp
  simp only [List.mem_map] at hsp
  obtain ⟨s, hs, rfl⟩ := hsp
  simp [castSplit, hall s hs]

/-- C5 witness: creating the "Tea" expense with the `paid` field absent
yields an expense whose overall flag and split flag are `false`. -/
theorem createExpense_default_paid_flags_witness :
    teaExpense.paid = false ∧
    ((∀ s ∈ [teaSplitIn], s.paid = none) →
      ∀ sp ∈ teaExpense.splits, sp.paid = false) :=
  createExpense_default_paid_flags demoSt 1 10 "Tea" 30 none [teaSplitIn] 0
    teaSt teaExpense rfl

/-! ### Claim C6 — label and amount validation at expense creation -/

/-- C6 counterexample: a request with total amount −5 (not strictly
positive) is accepted — mongoose's `required` on a `Number` path accepts
every number and the route adds no range check. -/
theorem createExpense_nonpositive_amount_accepted :
    (createExpense demoSt 1 10 "Dinner" (-5) none
      [{ userId := 2, shareAmount := -5, paid := none }] 0).isOk = true := rfl

/-- C6 (amended): for a request to an existing group, an empty label fails
with `ValidationError` (mongoose's `required` check on a `String` path
rejects the empty string), but the total amount is never checked: creation
succeeds for every amount, including zero and negative ones. -/
theorem createExpense_label_checked_amount_unchecked (st : DB) (r : Nat)
    (gid : Nat) (label : String) (amount : Int) (date : Option Nat)
    (splits : List SplitIn) (now : Nat) (group : Group)
    (hg : st.groups.find? (fun g => g.id = gid) = some group) :
    (label = "" → createExpense st r gid label amount date splits now =
        .error (.validation "label required")) ∧
    (label ≠ "" →
      (createExpense st r gid label amount date splits now).isOk = true) := by
  constructor
  · intro hl
    unfold createExpense
    rw [hg]
    simp [hl]
  · intro hl
    rw [createExpense_eq_ok st r gid label amount date splits now group hg hl]
    rfl

/-- C6 witness: with the non-empty label "Dinner" and amount 0 the request
is accepted; the empty-label conjunct is vacuous at this input. -/
theorem createExpense_label_checked_amount_unchecked_witness :
    ("Dinner" = "" → createExpense demoSt 1 10 "Dinner" 0 none [] 0 =
        .error (.validation "label required")) ∧
    ("Dinner" ≠ "" →
      (createExpense demoSt 1 10 "Dinner" 0 none [] 0).isOk = true) :=
  createExpense_label_checked_amount_unchecked demoSt 1 10 "Dinner" 0 none [] 0
    demoGroup rfl

/-! ### Claim C10 — member list of a created group -/

/-- C10: a successfully created group's member list is exactly the creator
followed by the request's members in order (so the creator is the first
member and nothing is deduplicated), and the group is stored. -/
theorem createGroup_members_exact (st : DB) (r : Nat) (n : String)
    (m : List Nat) (st2 : DB) (g : Group)
    (h : createGroup st r n m = .ok (st2, g)) :
    g.members = r :: m ∧ g.createdBy = r ∧ g ∈ st2.groups := by
  obtain ⟨-, hgeq, hst2⟩ := createGroup_ok_inv st r n m st2 g h
  subst hgeq
  subst hst2
  exact ⟨rfl, rfl, by simp⟩

/-- C10 witness: creating a group whose member list repeats the creator and
member 2 stores the duplicated list `[1, 1, 2, 2]`. -/
theorem createGroup_members_exact_witness :
    demoGroup2.members = 1 :: [1, 2, 2] ∧ demoGroup2.createdBy = 1 ∧
    demoGroup2 ∈ demoSt2.groups :=
  createGroup_members_exact demoSt 1 "G" [1, 2, 2] demoSt2 demoGroup2 rfl

/-! ### Claim C2 — the overall paid flag is not derived from the splits -/

/-- C2 counterexample: marking expense 3 paid makes the overall flag `true`
while its single split is still unpaid, so the overall flag is
independently settable, not derived from the split flags. -/
theorem markPaid_flag_true_with_unpaid_split :
    markPaid demoSt 3 = .ok demoStPaid ∧
    demoStPaid.expenses.map (fun e => (e.paid, e.splits.map Split.paid)) =
      [(true, [false])] :=
  ⟨rfl, rfl⟩

/-- C2 (amended): the overall paid flag is an independently stored field:
`markPaid` sets it to `true` unconditionally, leaving every split — paid or
not — unchanged, so the flag can be `true` while splits remain unpaid. -/
theorem markPaid_sets_flag_independent_of_splits (st : DB) (eid : Nat)
    (st2 : DB) (h : markPaid st eid = .ok st2) (e : Expense)
    (he : e ∈ st.expenses) (hid : e.id = eid) :
    ∃ e2, e2 ∈ st2.expenses ∧ e2.id = eid ∧ e2.paid = true ∧
      e2.splits = e.splits := by
  obtain ⟨-, hst2⟩ := markPaid_ok_inv st eid st2 h
  subst hst2
  refine ⟨{ e with paid := true }, ?_, hid, rfl, rfl⟩
  have hmem := List.mem_map_of_mem
    (fun e => if e.id = eid then { e with paid := true } else e) he
  simpa [hid] using hmem

/-- C2 witness: applied to expense 3 of the demo store, whose only split is
unpaid. -/
theorem markPaid_sets_flag_independent_of_splits_witness :
    ∃ e2, e2 ∈ demoStPaid.expenses ∧ e2.id = 3 ∧ e2.paid = true ∧
      e2.splits = demoExpense.splits :=
  markPaid_sets_flag_independent_of_splits demoSt 3 demoStPaid rfl demoExpense
    (by decide) rfl

/-! ### Claim C3 — re-marking is silent, not exactly-once -/

/-- C3 counterexample: after expense 3 is marked paid, a second mark-paid
call on the same, already paid, expense succeeds and returns the unchanged
store — there is no `ConflictError` (the embedding, like the route, has no
such error), and the code offers no per-split mark-paid at all. -/
theorem markPaid_second_call_succeeds_cex :
    markPaid demoSt 3 = .ok demoStPaid ∧
    demoStPaid.expenses.map Expense.paid = [true] ∧
    markPaid demoStPaid 3 = .ok demoStPaid :=
  ⟨rfl, rfl, rfl⟩

/-- C3 (amended): mark-paid is expense-level and idempotent rather than
exactly-once: whenever a mark-paid call succeeds, an immediate second call
on the same expense silently succeeds again, returning the identical
store. -/
theorem markPaid_remark_silently_succeeds (st : DB) (eid : Nat) (st2 : DB)
    (h : markPaid st eid = .ok st2) : markPaid st2 eid = .ok st2 := by
  obtain ⟨hsome, hst2⟩ := markPaid_ok_inv st eid st2 h
  subst hst2
  have hp : ∀ e : Expense,
      (decide ((if e.id = eid then { e with paid := true } else e).id = eid)) =
        decide (e.id = eid) := by
    intro e
    by_cases hid : e.id = eid <;> simp [hid]
  have hff : ∀ e : Expense,
      (fun e => if e.id = eid then { e with paid := true } else e)
        ((fun e => if e.id = eid then { e with paid := true } else e) e) =
      (fun e => if e.id = eid then { e with paid := true } else e) e := by
    intro e
    by_cases hid : e.id = eid <;> simp [hid]
  cases hf : st.expenses.find? (fun e => e.id = eid) with
  | none => rw [hf] at hsome; cases hsome
  | some e0 =>
    have hf2 : (st.expenses.map
        (fun e => if e.id = eid then { e with paid := true } else e)).find?
        (fun e => e.id = eid) =
        some (if e0.id = eid then { e0 with paid := true } else e0) := by
      rw [find?_map_pred_comm _ _ hp, hf]
      rfl
    unfold markPaid
    simp only [hf2]
    congr 1
    simp only [List.map_map]
    refine congrArg (fun l => DB.mk st.groups l st.nextId) ?_
    exact List.map_congr_left (fun e _ => hff e)

/-- C3 witness: the second mark-paid call on the already paid expense 3
silently succeeds with the unchanged store. -/
theorem markPaid_remark_silently_succeeds_witness :
    markPaid demoStPaid 3 = .ok demoStPaid :=
  markPaid_remark_silently_succeeds demoSt 3 demoStPaid rfl

/-! ### Claim C9 — frame of a successful mark-paid call -/

/-- C9: a successful mark-paid call leaves the groups collection and the id
counter untouched and keeps every expense's label, amount, date, owning
group and entire splits sequence (including each split's own paid flag);
only the matching expense's top-level paid flag changes, to `true`. -/
theorem markPaid_frame (st : DB) (eid : Nat) (st2 : DB)
    (h : markPaid st eid = .ok st2) :
    st2.groups = st.groups ∧ st2.nextId = st.nextId ∧
    st2.expenses.length = st.expenses.length ∧
    ∀ e, e ∈ st.expenses →
      ∃ e2, e2 ∈ st2.expenses ∧ e2.id = e.id ∧ e2.label = e.label ∧
        e2.amount = e.amount ∧ e2.date = e.date ∧ e2.group = e.group ∧
        e2.splits = e.splits ∧ (e.id ≠ eid → e2.paid = e.paid) ∧
        (e.id = eid → e2.paid = true) := by
  obtain ⟨-, hst2⟩ := markPaid_ok_inv st eid st2 h
  subst hst2
  refine ⟨rfl, rfl, by simp, ?_⟩
  intro e he
  refine ⟨if e.id = eid then { e with paid := true } else e,
    List.mem_map_of_mem (fun e => if e.id = eid then { e with paid := true } else e) he,
    ?_, ?_, ?_, ?_, ?_, ?_, ?_, ?_⟩ <;>
    by_cases hid : e.id = eid <;> simp [hid]

/-- C9 witness: the frame property at expense 3 of the demo store. -/
theorem markPaid_frame_witness :
    demoStPaid.groups = demoSt.groups ∧ demoStPaid.nextId = demoSt.nextId ∧
    demoStPaid.expenses.length = demoSt.expenses.length ∧
    ∀ e, e ∈ demoSt.expenses →
      ∃ e2, e2 ∈ demoStPaid.expenses ∧ e2.id = e.id ∧ e2.label = e.label ∧
        e2.amount = e.amount ∧ e2.date = e.date ∧ e2.group = e.group ∧
        e2.splits = e.splits ∧ (e.id ≠ 3 → e2.paid = e.paid) ∧
        (e.id = 3 → e2.paid = true) :=
  markPaid_frame demoSt 3 demoStPaid rfl

/-! ### Claim C7 — the creator is a member and membership is immutable -/

/-- C7: the creator of a successfully created group is one of its members,
and no operation of the API (group creation, expense creation, mark-paid)
ever changes the member list of a stored group: after any request, every
stored group is still present with the same id and the same member list. -/
theorem creator_member_and_membership_immutable (st : DB) (r : Nat)
    (n : String) (m : List Nat) (st2 : DB) (g : Group)
    (h : createGroup st r n m = .ok (st2, g)) :
    r ∈ g.members ∧
    ∀ (st3 : DB) (op : Op) (g3 : Group), g3 ∈ st3.groups →
      ∃ g4, g4 ∈ (applyOp st3 op).groups ∧ g4.id = g3.id ∧
        g4.members = g3.members := by
  constructor
  · obtain ⟨-, hgeq, -⟩ := createGroup_ok_inv st r n m st2 g h
    subst hgeq
    exact List.mem_cons_self r m
  · intro st3 op g3 hg3
    cases op with
    | createGroup r' n' m' =>
      simp only [applyOp]
      cases hc : createGroup st3 r' n' m' with
      | error err => exact ⟨g3, hg3, rfl, rfl⟩
      | ok p =>
        obtain ⟨st4, g4⟩ := p
        obtain ⟨-, -, hst4⟩ := createGroup_ok_inv st3 r' n' m' st4 g4 hc
        subst hst4
        exact ⟨g3, by simp [hg3], rfl, rfl⟩
    | createExpense r' gid' l' a' d' s' now' =>
      simp only [applyOp]
      cases hc : createExpense st3 r' gid' l' a' d' s' now' with
      | error err => exact ⟨g3, hg3, rfl, rfl⟩
      | ok p =>
        obtain ⟨st4, e4⟩ := p
        obtain ⟨grp, -, -, -, hst4⟩ :=
          createExpense_ok_inv st3 r' gid' l' a' d' s' now' st4 e4 hc
        subst hst4
        refine ⟨if g3.id = gid' then { g3 with expenses := g3.expenses ++ [st3.nextId] }
          else g3, ?_, ?_, ?_⟩
        · exact List.mem_map_of_mem
            (fun g => if g.id = gid' then { g with expenses := g.expenses ++ [st3.nextId] }
              else g) hg3
        · by_cases hid : g3.id = gid' <;> simp [hid]
        · by_cases hid : g3.id = gid' <;> simp [hid]
    | markPaid eid' =>
      simp only [applyOp]
      cases hc : markPaid st3 eid' with
      | error err => exact ⟨g3, hg3, rfl, rfl⟩
      | ok st4 =>
        obtain ⟨-, hst4⟩ := markPaid_ok_inv st3 eid' st4 hc
        subst hst4
        exact ⟨g3, hg3, rfl, rfl⟩

/-- C7 witness: the creator of the freshly created demo group is a member,
and membership is preserved by every operation. -/
theorem creator_member_and_membership_immutable_witness :
    1 ∈ demoGroup2.members ∧
    ∀ (st3 : DB) (op : Op) (g3 : Group), g3 ∈ st3.groups →
      ∃ g4, g4 ∈ (applyOp st3 op).groups ∧ g4.id = g3.id ∧
        g4.members = g3.members :=
  creator_member_and_membership_immutable demoSt 1 "G" [1, 2, 2] demoSt2
    demoGroup2 rfl

/-! ### Settlement engine lemmas -/

theorem foldl_choice_mem (f : Nat × Int → Nat × Int → Nat × Int)
    (hf : ∀ b p, f b p = b ∨ f b p = p) :
    ∀ (xs : List (Nat × Int)) (x : Nat × Int), xs.foldl f x ∈ x :: xs := by
  intro xs
  induction xs with
  | nil => intro x; simp
  | cons y ys ih =>
    intro x
    simp only [List.foldl_cons]
    rcases hf x y with h | h <;> rw [h]
    · rcases List.mem_cons.mp (ih x) with h2 | h2
      · rw [h2]; exact List.mem_cons_self x (y :: ys)
      · exact List.mem_cons_of_mem _ (List.mem_cons_of_mem _ h2)
    · exact List.mem_cons_of_mem _ (ih y)

theorem betterCreditor_choice (b p : Nat × Int) :
    betterCreditor b p = b ∨ betterCreditor b p = p := by
  unfold betterCreditor
  split
  · exact Or.inr rfl
  · exact Or.inl rfl

theorem betterDebtor_choice (b p : Nat × Int) :
    betterDebtor b p = b ∨ betterDebtor b p = p := by
  unfold betterDebtor
  split
  · exact Or.inr rfl
  · exact Or.inl rfl

theorem pickCreditor_mem (l : List (Nat × Int)) (c : Nat × Int)
    (h : pickCreditor l = some c) : c ∈ l := by
  cases l with
  | nil => cases h
  | cons x xs =>
    simp only [pickCreditor, Option.some.injEq] at h
    subst h
    exact foldl_choice_mem betterCreditor betterCreditor_choice xs x

theorem pickDebtor_mem (l : List (Nat × Int)) (d : Nat × Int)
    (h : pickDebtor l = some d) : d ∈ l := by
  cases l with
  | nil => cases h
  | cons x xs =>
    simp only [pickDebtor, Option.some.injEq] at h
    subst h
    exact foldl_choice_mem betterDebtor betterDebtor_choice xs x

theorem pickCreditor_eq_none (l : List (Nat × Int))
    (h : pickCreditor l = none) : l = [] := by
  cases l with
  | nil => rfl
  | cons x xs => simp [pickCreditor] at h

theorem pickDebtor_eq_none (l : List (Nat × Int))
    (h : pickDebtor l = none) : l = [] := by
  cases l with
  | nil => rfl
  | cons x xs => simp [pickDebtor] at h

theorem sum_nonpos_of_mem (l : List Int) (h : ∀ x ∈ l, x ≤ 0) : l.sum ≤ 0 := by
  induction l with
  | nil => simp
  | cons a l ih =>
    simp only [List.sum_cons]
    have h1 := h a (List.mem_cons_self a l)
    have h2 := ih (fun x hx => h x (List.mem_cons_of_mem a hx))
    omega

theorem sum_nonneg_of_mem (l : List Int) (h : ∀ x ∈ l, 0 ≤ x) : 0 ≤ l.sum := by
  induction l with
  | nil => simp
  | cons a l ih =>
    simp only [List.sum_cons]
    have h1 := h a (List.mem_cons_self a l)
    have h2 := ih (fun x hx => h x (List.mem_cons_of_mem a hx))
    omega

theorem eq_nil_of_neg_sum_zero (l : List (Nat × Int))
    (hneg : ∀ p ∈ l, p.2 < 0) (hsum : (l.map Prod.snd).sum = 0) : l = [] := by
  cases l with
  | nil => rfl
  | cons a l =>
    exfalso
    have h1 : a.2 < 0 := hneg a (List.mem_cons_self a l)
    have h2 : (l.map Prod.snd).sum ≤ 0 := by
      refine sum_nonpos_of_mem _ ?_
      intro x hx
      rw [List.mem_map] at hx
      obtain ⟨p, hp, rfl⟩ := hx
      exact le_of_lt (hneg p (List.mem_cons_of_mem a hp))
    rw [List.map_cons, List.sum_cons] at hsum
    omega

theorem eq_nil_of_pos_sum_zero (l : List (Nat × Int))
    (hpos : ∀ p ∈ l, 0 < p.2) (hsum : (l.map Prod.snd).sum = 0) : l = [] := by
  cases l with
  | nil => rfl
  | cons a l =>
    exfalso
    have h1 : 0 < a.2 := hpos a (List.mem_cons_self a l)
    have h2 : 0 ≤ (l.map Prod.snd).sum := by
      refine sum_nonneg_of_mem _ ?_
      intro x hx
      rw [List.mem_map] at hx
      obtain ⟨p, hp, rfl⟩ := hx
      exact le_of_lt (hpos p (List.mem_cons_of_mem a hp))
    rw [List.map_cons, List.sum_cons] at hsum
    omega

theorem keys_nodup_inj (l : List (Nat × Int))
    (hnd : (l.map Prod.fst).Nodup) (p q : Nat × Int) (hp : p ∈ l) (hq : q ∈ l)
    (h : p.1 = q.1) : p = q := by
  induction l with
  | nil => cases hp
  | cons a l ih =>
    rw [List.map_cons, List.nodup_cons] at hnd
    rcases List.mem_cons.mp hp with rfl | hp' <;>
      rcases List.mem_cons.mp hq with rfl | hq'
    · rfl
    · exact absurd (by rw [h]; exact List.mem_map_of_mem Prod.fst hq') hnd.1
    · exact absurd (by rw [← h]; exact List.mem_map_of_mem Prod.fst hp') hnd.1
    · exact ih hnd.2 hp' hq'

theorem perm_cons_removeFirst (side : List (Nat × Int)) (chosen : Nat × Int)
    (hmem : chosen ∈ side) :
    List.Perm side (chosen :: removeFirst side chosen) := by
  induction side with
  | nil => cases hmem
  | cons x xs ih =>
    by_cases hx : x = chosen
    · subst hx
      simp only [removeFirst, if_pos rfl]
      exact List.Perm.refl _
    · have hmem' : chosen ∈ xs := by
        rcases List.mem_cons.mp hmem with h | h
        · exact absurd h.symm hx
        · exact h
      simp only [removeFirst, if_neg hx]
      exact ((ih hmem').cons x).trans (List.Perm.swap chosen x _)

theorem removeFirst_sublist (side : List (Nat × Int)) (chosen : Nat × Int) :
    List.Sublist (removeFirst side chosen) side := by
  induction side with
  | nil => simp [removeFirst]
  | cons x xs ih =>
    simp only [removeFirst]
    split
    · exact List.sublist_cons_self x xs
    · exact ih.cons₂ x

theorem length_removeFirst (side : List (Nat × Int)) (chosen : Nat × Int)
    (hmem : chosen ∈ side) :
    (removeFirst side chosen).length + 1 = side.length := by
  have h := (perm_cons_removeFirst side chosen hmem).length_eq
  simpa using h.symm

theorem mem_removeFirst_of_ne (side : List (Nat × Int)) (chosen : Nat × Int)
    (q : Nat × Int) (hq : q ∈ side) (hne : q ≠ chosen) :
    q ∈ removeFirst side chosen := by
  induction side with
  | nil => cases hq
  | cons x xs ih =>
    simp only [removeFirst]
    split
    · rename_i hx
      subst hx
      rcases List.mem_cons.mp hq with h | h
      · exact absurd h hne
      · exact h
    · rcases List.mem_cons.mp hq with h | h
      · rw [h]; exact List.mem_cons_self x (removeFirst xs chosen)
      · exact List.mem_cons_of_mem _ (ih h)

theorem applyPick_mem_vals (side : List (Nat × Int)) (chosen : Nat × Int)
    (nb : Int) (q : Nat × Int) (hq : q ∈ applyPick side chosen nb) :
    (q = (chosen.1, nb) ∧ nb ≠ 0) ∨ q ∈ removeFirst side chosen := by
  unfold applyPick at hq
  split at hq
  · exact Or.inr hq
  · rename_i hnb
    rcases List.mem_cons.mp hq with h | h
    · exact Or.inl ⟨h, hnb⟩
    · exact Or.inr h

theorem applyPick_mem_of (side : List (Nat × Int)) (chosen : Nat × Int)
    (nb : Int) (q : Nat × Int) (hq : q ∈ removeFirst side chosen) :
    q ∈ applyPick side chosen nb := by
  unfold applyPick
  split
  · exact hq
  · exact List.mem_cons_of_mem _ hq

theorem applyPick_mem_new (side : List (Nat × Int)) (chosen : Nat × Int)
    (nb : Int) (hnb : nb ≠ 0) : (chosen.1, nb) ∈ applyPick side chosen nb := by
  unfold applyPick
  rw [if_neg hnb]
  exact List.mem_cons_self _ _

theorem applyPick_keys_subset (side : List (Nat × Int)) (chosen : Nat × Int)
    (nb : Int) (hmem : chosen ∈ side) :
    ∀ a ∈ (applyPick side chosen nb).map Prod.fst, a ∈ side.map Prod.fst := by
  intro a ha
  rw [List.mem_map] at ha
  obtain ⟨q, hq, rfl⟩ := ha
  rcases applyPick_mem_vals side chosen nb q hq with ⟨rfl, -⟩ | h
  · show chosen.1 ∈ side.map Prod.fst
    exact List.mem_map_of_mem Prod.fst hmem
  · exact List.mem_map_of_mem Prod.fst ((removeFirst_sublist side chosen).subset h)

theorem applyPick_nodup_keys (side : List (Nat × Int)) (chosen : Nat × Int)
    (nb : Int) (hmem : chosen ∈ side) (hnd : (side.map Prod.fst).Nodup) :
    ((applyPick side chosen nb).map Prod.fst).Nodup := by
  have hperm : List.Perm (side.map Prod.fst)
      (chosen.1 :: (removeFirst side chosen).map Prod.fst) :=
    (perm_cons_removeFirst side chosen hmem).map Prod.fst
  have hcons := hperm.nodup hnd
  rw [List.nodup_cons] at hcons
  unfold applyPick
  split
  · exact hcons.2
  · rw [List.map_cons, List.nodup_cons]
    exact ⟨hcons.1, hcons.2⟩

theorem applyPick_sum (side : List (Nat × Int)) (chosen : Nat × Int)
    (nb : Int) (hmem : chosen ∈ side) :
    ((applyPick side chosen nb).map Prod.snd).sum =
      (side.map Prod.snd).sum - chosen.2 + nb := by
  have hperm : List.Perm (side.map Prod.snd)
      (chosen.2 :: (removeFirst side chosen).map Prod.snd) :=
    (perm_cons_removeFirst side chosen hmem).map Prod.snd
  have hs := hperm.sum_eq
  rw [List.sum_cons] at hs
  unfold applyPick
  split
  · rename_i h; omega
  · rw [List.map_cons, List.sum_cons]; omega

theorem applyPick_length_le (side : List (Nat × Int)) (chosen : Nat × Int)
    (nb : Int) (hmem : chosen ∈ side) :
    (applyPick side chosen nb).length ≤ side.length := by
  have h := length_removeFirst side chosen hmem
  unfold applyPick
  split
  · omega
  · rw [List.length_cons]; omega

theorem applyPick_length_zero (side : List (Nat × Int)) (chosen : Nat × Int)
    (nb : Int) (hmem : chosen ∈ side) (hnb : nb = 0) :
    (applyPick side chosen nb).length + 1 = side.length := by
  have h := length_removeFirst side chosen hmem
  unfold applyPick
  rw [if_pos hnb]
  omega

theorem net_cons_mk (s r : Nat) (a : Int) (ts : List Transfer) (x : Nat) :
    net ({ src := s, dst := r, amount := a } :: ts) x =
      ((if s = x then a else 0) - (if r = x then a else 0)) + net ts x := by
  simp [net]

theorem net_cons (tr : Transfer) (ts : List Transfer) (x : Nat) :
    net (tr :: ts) x =
      ((if tr.src = x then tr.amount else 0) -
        (if tr.dst = x then tr.amount else 0)) + net ts x := by
  simp [net]

theorem applyTransfers_eq (ts : List Transfer) : ∀ bs : List (Nat × Int),
    applyTransfers bs ts = bs.map (fun p => (p.1, p.2 + net ts p.1)) := by
  induction ts with
  | nil =>
    intro bs
    simp [applyTransfers, net]
  | cons tr ts ih =>
    intro bs
    show applyTransfers (applyTransfer bs tr) ts = _
    rw [ih (applyTransfer bs tr)]
    unfold applyTransfer
    rw [List.map_map]
    refine List.map_congr_left ?_
    intro p hp
    simp only [Function.comp]
    rw [net_cons]
    refine congrArg (Prod.mk p.1) ?_
    omega

theorem sum_filter_pos_neg (l : List (Nat × Int)) :
    ((l.filter (fun p => 0 < p.2)).map Prod.snd).sum +
      ((l.filter (fun p => p.2 < 0)).map Prod.snd).sum =
      (l.map Prod.snd).sum := by
  induction l with
  | nil => rfl
  | cons a l ih =>
    by_cases h1 : 0 < a.2 <;> by_cases h2 : a.2 < 0
    · omega
    · simp [List.filter_cons, h1, h2]
      omega
    · simp [List.filter_cons, h1, h2]
      omega
    · simp [List.filter_cons, h1, h2]
      omega

theorem length_filter_pos_neg (l : List (Nat × Int)) :
    (l.filter (fun p => 0 < p.2)).length +
      (l.filter (fun p => p.2 < 0)).length ≤ l.length := by
  induction l with
  | nil => simp
  | cons a l ih =>
    by_cases h1 : 0 < a.2 <;> by_cases h2 : a.2 < 0
    · omega
    · simp [List.filter_cons, h1, h2]
      omega
    · simp [List.filter_cons, h1, h2]
      omega
    · simp [List.filter_cons, h1, h2]
      omega

/-- Full correctness of the greedy settlement loop, by induction on the
fuel: given disjoint, duplicate-free creditor and debtor sides whose
balances cancel, the produced transfers zero every party's balance, touch
nobody else, number at most one less than the number of parties, and move
in total exactly the creditors' aggregate balance. -/
theorem settleFuel_spec (fuel : Nat) :
    ∀ cs ds : List (Nat × Int),
      cs.length + ds.length ≤ fuel →
      (∀ p ∈ cs, 0 < p.2) →
      (∀ p ∈ ds, p.2 < 0) →
      ((cs ++ ds).map Prod.fst).Nodup →
      ((cs ++ ds).map Prod.snd).sum = 0 →
      (∀ p ∈ cs ++ ds, p.2 + net (settleFuel fuel cs ds) p.1 = 0) ∧
      (∀ x, (∀ p ∈ cs ++ ds, p.1 ≠ x) → net (settleFuel fuel cs ds) x = 0) ∧
      (settleFuel fuel cs ds).length ≤ cs.length + ds.length - 1 ∧
      ((settleFuel fuel cs ds).map Transfer.amount).sum =
        (cs.map Prod.snd).sum := by
  induction fuel with
  | zero =>
    intro cs ds hlen hpos hneg hnd hsum
    have hcs : cs = [] := List.eq_nil_of_length_eq_zero (by omega)
    have hds : ds = [] := List.eq_nil_of_length_eq_zero (by omega)
    subst hcs
    subst hds
    refine ⟨by simp, ?_, by simp [settleFuel], by simp [settleFuel, net]⟩
    intro x hx
    simp [settleFuel, net]
  | succ fuel ih =>
    intro cs ds hlen hpos hneg hnd hsum
    cases hpc : pickCreditor cs with
    | none =>
      have hcs : cs = [] := pickCreditor_eq_none cs hpc
      subst hcs
      have hds : ds = [] := by
        refine eq_nil_of_neg_sum_zero ds hneg ?_
        simpa using hsum
      subst hds
      refine ⟨by simp, ?_, by simp [settleFuel, pickCreditor],
        by simp [settleFuel, pickCreditor, net]⟩
      intro x hx
      simp [settleFuel, pickCreditor, net]
    | some c =>
      cases hpd : pickDebtor ds with
      | none =>
        have hds : ds = [] := pickDebtor_eq_none ds hpd
        subst hds
        have hcs : cs = [] := by
          refine eq_nil_of_pos_sum_zero cs hpos ?_
          simpa using hsum
        subst hcs
        simp [pickCreditor] at hpc
      | some d =>
        have hcmem : c ∈ cs := pickCreditor_mem cs c hpc
        have hdmem : d ∈ ds := pickDebtor_mem ds d hpd
        have hcpos : 0 < c.2 := hpos c hcmem
        have hdneg : d.2 < 0 := hneg d hdmem
        have htpos : 0 < min c.2 (-d.2) := lt_min hcpos (by omega)
        have htc : min c.2 (-d.2) ≤ c.2 := min_le_left _ _
        have htd : min c.2 (-d.2) ≤ -d.2 := min_le_right _ _
        have hz : c.2 - min c.2 (-d.2) = 0 ∨ d.2 + min c.2 (-d.2) = 0 := by
          rcases min_choice c.2 (-d.2) with h | h
          · left; omega
          · right; omega
        have hstep : settleFuel (fuel + 1) cs ds =
            { src := d.1, dst := c.1, amount := min c.2 (-d.2) } ::
              settleFuel fuel (applyPick cs c (c.2 - min c.2 (-d.2)))
                (applyPick ds d (d.2 + min c.2 (-d.2))) := by
          simp [settleFuel, hpc, hpd]
        rw [List.map_append, List.nodup_append] at hnd
        obtain ⟨hndc, hndd, hdisj⟩ := hnd
        have hpermc := (perm_cons_removeFirst cs c hcmem).map Prod.fst
        have hconsc := hpermc.nodup hndc
        rw [List.map_cons, List.nodup_cons] at hconsc
        obtain ⟨hc1nrf, hndrfc⟩ := hconsc
        have hpermd := (perm_cons_removeFirst ds d hdmem).map Prod.fst
        have hconsd := hpermd.nodup hndd
        rw [List.map_cons, List.nodup_cons] at hconsd
        obtain ⟨hd1nrf, hndrfd⟩ := hconsd
        have hc1notds : c.1 ∉ ds.map Prod.fst :=
          fun hin => hdisj (List.mem_map_of_mem Prod.fst hcmem) hin
        have hd1notcs : d.1 ∉ cs.map Prod.fst :=
          fun hin => hdisj hin (List.mem_map_of_mem Prod.fst hdmem)
        have hc1d1 : c.1 ≠ d.1 := fun h =>
          hc1notds (by rw [h]; exact List.mem_map_of_mem Prod.fst hdmem)
        have hpos' : ∀ p ∈ applyPick cs c (c.2 - min c.2 (-d.2)), 0 < p.2 := by
          intro q hq
          rcases applyPick_mem_vals _ _ _ q hq with ⟨rfl, hne⟩ | h
          · show 0 < c.2 - min c.2 (-d.2)
            omega
          · exact hpos q ((removeFirst_sublist cs c).subset h)
        have hneg' : ∀ p ∈ applyPick ds d (d.2 + min c.2 (-d.2)), p.2 < 0 := by
          intro q hq
          rcases applyPick_mem_vals _ _ _ q hq with ⟨rfl, hne⟩ | h
          · show d.2 + min c.2 (-d.2) < 0
            omega
          · exact hneg q ((removeFirst_sublist ds d).subset h)
        have hnd' : (((applyPick cs c (c.2 - min c.2 (-d.2))) ++
            (applyPick ds d (d.2 + min c.2 (-d.2)))).map Prod.fst).Nodup := by
          rw [List.map_append, List.nodup_append]
          refine ⟨applyPick_nodup_keys cs c _ hcmem hndc,
            applyPick_nodup_keys ds d _ hdmem hndd, ?_⟩
          intro a hac had
          exact hdisj (applyPick_keys_subset cs c _ hcmem a hac)
            (applyPick_keys_subset ds d _ hdmem a had)
        have hsumc' := applyPick_sum cs c (c.2 - min c.2 (-d.2)) hcmem
        have hsumd' := applyPick_sum ds d (d.2 + min c.2 (-d.2)) hdmem
        have hsum0 : (cs.map Prod.snd).sum + (ds.map Prod.snd).sum = 0 := by
          rw [List.map_append, List.sum_append] at hsum
          exact hsum
        have hsum' : (((applyPick cs c (c.2 - min c.2 (-d.2))) ++
            (applyPick ds d (d.2 + min c.2 (-d.2)))).map Prod.snd).sum = 0 := by
          rw [List.map_append, List.sum_append, hsumc', hsumd']
          omega
        have hlen' : (applyPick cs c (c.2 - min c.2 (-d.2))).length +
            (applyPick ds d (d.2 + min c.2 (-d.2))).length ≤ fuel := by
          have h1 := applyPick_length_le cs c (c.2 - min c.2 (-d.2)) hcmem
          have h2 := applyPick_length_le ds d (d.2 + min c.2 (-d.2)) hdmem
          rcases hz with h | h
          · have h3 := applyPick_length_zero cs c _ hcmem h
            omega
          · have h3 := applyPick_length_zero ds d _ hdmem h
            omega
        obtain ⟨Z, F, L, T⟩ := ih (applyPick cs c (c.2 - min c.2 (-d.2)))
          (applyPick ds d (d.2 + min c.2 (-d.2))) hlen' hpos' hneg' hnd' hsum'
        refine ⟨?_, ?_, ?_, ?_⟩
        · intro p hp
          rw [hstep, net_cons_mk]
          rcases List.mem_append.mp hp with hpcs | hpds
          · by_cases hp1 : p.1 = c.1
            · have hpec : p = c := keys_nodup_inj cs hndc p c hpcs hcmem hp1
              rw [hpec]
              rw [if_neg (Ne.symm hc1d1), if_pos rfl]
              by_cases hc0 : c.2 - min c.2 (-d.2) = 0
              · have hnet : net (settleFuel fuel
                    (applyPick cs c (c.2 - min c.2 (-d.2)))
                    (applyPick ds d (d.2 + min c.2 (-d.2)))) c.1 = 0 := by
                  refine F c.1 ?_
                  intro q hq
                  rcases List.mem_append.mp hq with hqc | hqd
                  · rcases applyPick_mem_vals _ _ _ q hqc with ⟨rfl, hne⟩ | hqrf
                    · exact absurd hc0 hne
                    · intro hqeq
                      exact hc1nrf (hqeq ▸ List.mem_map_of_mem Prod.fst hqrf)
                  · intro hqeq
                    refine hc1notds ?_
                    have hsub := applyPick_keys_subset ds d
                      (d.2 + min c.2 (-d.2)) hdmem q.1
                      (List.mem_map_of_mem Prod.fst hqd)
                    exact hqeq ▸ hsub
                rw [hnet]
                omega
              · have hq := Z (c.1, c.2 - min c.2 (-d.2))
                  (List.mem_append_left _ (applyPick_mem_new cs c _ hc0))
                dsimp only at hq
                omega
            · have hp1d : p.1 ≠ d.1 := fun h =>
                hdisj (List.mem_map_of_mem Prod.fst hpcs)
                  (by rw [h]; exact List.mem_map_of_mem Prod.fst hdmem)
              rw [if_neg (Ne.symm hp1d), if_neg (fun h => hp1 h.symm)]
              have hprf : p ∈ removeFirst cs c :=
                mem_removeFirst_of_ne cs c p hpcs (fun h => hp1 (by rw [h]))
              have hq := Z p
                (List.mem_append_left _ (applyPick_mem_of cs c _ p hprf))
              omega
          · by_cases hp1 : p.1 = d.1
            · have hped : p = d := keys_nodup_inj ds hndd p d hpds hdmem hp1
              rw [hped]
              rw [if_pos rfl, if_neg hc1d1]
              by_cases hd0 : d.2 + min c.2 (-d.2) = 0
              · have hnet : net (settleFuel fuel
                    (applyPick cs c (c.2 - min c.2 (-d.2)))
                    (applyPick ds d (d.2 + min c.2 (-d.2)))) d.1 = 0 := by
                  refine F d.1 ?_
                  intro q hq
                  rcases List.mem_append.mp hq with hqc | hqd
                  · intro hqeq
                    refine hd1notcs ?_
                    have hsub := applyPick_keys_subset cs c
                      (c.2 - min c.2 (-d.2)) hcmem q.1
                      (List.mem_map_of_mem Prod.fst hqc)
                    exact hqeq ▸ hsub
                  · rcases applyPick_mem_vals _ _ _ q hqd with ⟨rfl, hne⟩ | hqrf
                    · exact absurd hd0 hne
                    · intro hqeq
                      exact hd1nrf (hqeq ▸ List.mem_map_of_mem Prod.fst hqrf)
                rw [hnet]
                omega
              · have hq := Z (d.1, d.2 + min c.2 (-d.2))
                  (List.mem_append_right _ (applyPick_mem_new ds d _ hd0))
                dsimp only at hq
                omega
            · have hp1c : p.1 ≠ c.1 := fun h =>
                hdisj (by rw [h]; exact List.mem_map_of_mem Prod.fst hcmem)
                  (List.mem_map_of_mem Prod.fst hpds)
              rw [if_neg (Ne.symm hp1), if_neg (fun h => hp1c h.symm)]
              have hprf : p ∈ removeFirst ds d :=
                mem_removeFirst_of_ne ds d p hpds (fun h => hp1 (by rw [h]))
              have hq := Z p
                (List.mem_append_right _ (applyPick_mem_of ds d _ p hprf))
              omega
        · intro x hx
          rw [hstep, net_cons_mk]
          have hd1x : d.1 ≠ x := hx d (List.mem_append_right _ hdmem)
          have hc1x : c.1 ≠ x := hx c (List.mem_append_left _ hcmem)
          rw [if_neg hd1x, if_neg hc1x]
          have hnet : net (settleFuel fuel
              (applyPick cs c (c.2 - min c.2 (-d.2)))
              (applyPick ds d (d.2 + min c.2 (-d.2)))) x = 0 := by
            refine F x ?_
            intro q hq
            rcases List.mem_append.mp hq with hqc | hqd
            · have hsub := applyPick_keys_subset cs c (c.2 - min c.2 (-d.2))
                hcmem q.1 (List.mem_map_of_mem Prod.fst hqc)
              rw [List.mem_map] at hsub
              obtain ⟨p, hpmem, hpeq⟩ := hsub
              rw [← hpeq]
              exact hx p (List.mem_append_left _ hpmem)
            · have hsub := applyPick_keys_subset ds d (d.2 + min c.2 (-d.2))
                hdmem q.1 (List.mem_map_of_mem Prod.fst hqd)
              rw [List.mem_map] at hsub
              obtain ⟨p, hpmem, hpeq⟩ := hsub
              rw [← hpeq]
              exact hx p (List.mem_append_right _ hpmem)
          rw [hnet]
          omega
        · rw [hstep, List.length_cons]
          have h1 := applyPick_length_le cs c (c.2 - min c.2 (-d.2)) hcmem
          have h2 := applyPick_length_le ds d (d.2 + min c.2 (-d.2)) hdmem
          have h5 : 0 < cs.length := List.length_pos_of_mem hcmem
          have h6 : 0 < ds.length := List.length_pos_of_mem hdmem
          rcases hz with h | h
          · have h3 := applyPick_length_zero cs c _ hcmem h
            omega
          · have h3 := applyPick_length_zero ds d _ hdmem h
            omega
        · rw [hstep, List.map_cons, List.sum_cons]
          dsimp only
          rw [T, hsumc']
          omega

/-! ### Claim C8 — correctness of the settlement engine -/

/-- C8: on a duplicate-free, zero-sum balance mapping, `simplifyDebts`
succeeds and returns a transfer sequence that (i) when applied brings every
member's balance to exactly zero, (ii) has at most `n − 1` entries for `n`
members, and (iii) moves in total exactly the sum of the positive balances.
Determinism under the lower-member-id-first tie-break holds by
construction: the embedding is a pure function of the balance list. -/
theorem simplifyDebts_correct (balances : List (Nat × Int))
    (hnodup : (balances.map Prod.fst).Nodup)
    (hsum : (balances.map Prod.snd).sum = 0) :
    ∃ ts, simplifyDebts balances = .ok ts ∧
      (∀ p ∈ applyTransfers balances ts, p.2 = 0) ∧
      ts.length ≤ balances.length - 1 ∧
      (ts.map Transfer.amount).sum =
        ((balances.filter (fun p => 0 < p.2)).map Prod.snd).sum := by
  have hok : simplifyDebts balances =
      .ok (settle (balances.filter (fun p => 0 < p.2))
        (balances.filter (fun p => p.2 < 0))) := by
    unfold simplifyDebts
    rw [if_pos hsum]
  have hposc : ∀ p ∈ balances.filter (fun p => 0 < p.2), 0 < p.2 := by
    intro p hp
    have h := List.mem_filter.mp hp
    simpa using h.2
  have hnegd : ∀ p ∈ balances.filter (fun p => p.2 < 0), p.2 < 0 := by
    intro p hp
    have h := List.mem_filter.mp hp
    simpa using h.2
  have hndc : ((balances.filter (fun p => 0 < p.2)).map Prod.fst).Nodup :=
    hnodup.sublist ((List.filter_sublist balances).map Prod.fst)
  have hndd : ((balances.filter (fun p => p.2 < 0)).map Prod.fst).Nodup :=
    hnodup.sublist ((List.filter_sublist balances).map Prod.fst)
  have hnd2 : (((balances.filter (fun p => 0 < p.2)) ++
      (balances.filter (fun p => p.2 < 0))).map Prod.fst).Nodup := by
    rw [List.map_append, List.nodup_append]
    refine ⟨hndc, hndd, ?_⟩
    intro a hac had
    rw [List.mem_map] at hac had
    obtain ⟨p, hp, hpa⟩ := hac
    obtain ⟨q, hq, hqa⟩ := had
    have hpB : p ∈ balances := List.mem_of_mem_filter hp
    have hqB : q ∈ balances := List.mem_of_mem_filter hq
    have hpq : p = q :=
      keys_nodup_inj balances hnodup p q hpB hqB (by rw [hpa, hqa])
    have h1 : 0 < p.2 := hposc p hp
    have h2 : q.2 < 0 := hnegd q hq
    rw [hpq] at h1
    omega
  have hsum2 : (((balances.filter (fun p => 0 < p.2)) ++
      (balances.filter (fun p => p.2 < 0))).map Prod.snd).sum = 0 := by
    rw [List.map_append, List.sum_append]
    have h := sum_filter_pos_neg balances
    omega
  obtain ⟨Z, F, L, T⟩ := settleFuel_spec
    ((balances.filter (fun p => 0 < p.2)).length +
      (balances.filter (fun p => p.2 < 0)).length)
    (balances.filter (fun p => 0 < p.2))
    (balances.filter (fun p => p.2 < 0))
    le_rfl hposc hnegd hnd2 hsum2
  refine ⟨settle (balances.filter (fun p => 0 < p.2))
    (balances.filter (fun p => p.2 < 0)), hok, ?_, ?_, ?_⟩
  · intro p hp
    rw [applyTransfers_eq, List.mem_map] at hp
    obtain ⟨q, hq, rfl⟩ := hp
    dsimp only
    rcases lt_trichotomy q.2 0 with h | h | h
    · have hmem : q ∈ balances.filter (fun p => p.2 < 0) :=
        List.mem_filter.mpr ⟨hq, by simpa using h⟩
      exact Z q (List.mem_append_right _ hmem)
    · have hnet : net (settle (balances.filter (fun p => 0 < p.2))
          (balances.filter (fun p => p.2 < 0))) q.1 = 0 := by
        refine F q.1 ?_
        intro r hr
        intro hreq
        have hrB : r ∈ balances := by
          rcases List.mem_append.mp hr with h2 | h2
          · exact List.mem_of_mem_filter h2
          · exact List.mem_of_mem_filter h2
        have hrq : r = q := keys_nodup_inj balances hnodup r q hrB hq hreq
        have h3 : r.2 = q.2 := by rw [hrq]
        rcases List.mem_append.mp hr with h2 | h2
        · have h4 := hposc r h2
          omega
        · have h4 := hnegd r h2
          omega
      rw [hnet]
      omega
    · have hmem : q ∈ balances.filter (fun p => 0 < p.2) :=
        List.mem_filter.mpr ⟨hq, by simpa using h⟩
      exact Z q (List.mem_append_left _ hmem)
  · have h := length_filter_pos_neg balances
    have h2 : (settle (balances.filter (fun p => 0 < p.2))
        (balances.filter (fun p => p.2 < 0))).length ≤
        (balances.filter (fun p => 0 < p.2)).length +
          (balances.filter (fun p => p.2 < 0)).length - 1 := L
    omega
  · exact T

/-- C8 witness: the spec's section 8 scenario, balances
`{1 ↦ +60, 2 ↦ −30, 3 ↦ −30}`. -/
theorem simplifyDebts_correct_witness :
    (([(1, 60), (2, -30), (3, -30)] : List (Nat × Int)).map Prod.fst).Nodup ∧
    (([(1, 60), (2, -30), (3, -30)] : List (Nat × Int)).map Prod.snd).sum = 0 ∧
    (∃ ts, simplifyDebts [(1, 60), (2, -30), (3, -30)] = .ok ts ∧
      (∀ p ∈ applyTransfers [(1, 60), (2, -30), (3, -30)] ts, p.2 = 0) ∧
      ts.length ≤ ([(1, 60), (2, -30), (3, -30)] : List (Nat × Int)).length - 1 ∧
      (ts.map Transfer.amount).sum =
        ((([(1, 60), (2, -30), (3, -30)] : List (Nat × Int)).filter
          (fun p => 0 < p.2)).map Prod.snd).sum) :=
  ⟨by decide, by decide,
    simplifyDebts_correct [(1, 60), (2, -30), (3, -30)] (by decide) (by decide)⟩

end Splitwise
